import Mathlib

/-!
Shallow embedding of the rOOM user-space OOM killer (Rust) for checking its
natural-language specification.  Every definition below is translated from
the repository's source; `f64` arithmetic is modelled by exact rationals
(`ℚ`), machine integers by `Nat`/`Int` (the statistic counters cannot
realistically wrap a `u64`, and Rust debug builds abort on overflow, so no
modular reduction is applied), `Instant` by a `Nat` timestamp, and file
contents by `List Char` (inputs of interest are ASCII, so Rust byte indices
coincide with character indices).  Fallible operations return `Option` or
`Except`; a Rust panic (out-of-bounds index or slice) is a distinguished
outcome.
-/

namespace Room

/- Batteries marks the core `Rat` arithmetic `@[irreducible]`; restore
semireducibility locally so that concrete rational computations can be
checked by `decide`. -/
attribute [local semireducible] Rat.mul Rat.inv Rat.add Rat.sub

/-- `SystemError` from `src/ffi/types.rs`, with the wrapped `io::Error` of
`SyscallError` reduced to a marker (its payload never influences control
flow in the modelled code). -/
inductive SysErr where
  | processNotFound
  | permissionDenied
  | syscallErr
  deriving DecidableEq, Repr

/-- `ProcessId` from `src/ffi/types.rs`: a wrapped `c_int`. -/
structure ProcessId where
  raw : Int
  deriving DecidableEq, Repr

/-- `ProcessId::new`: accepts only positive pids. -/
def ProcessId.new (pid : Int) : Option ProcessId :=
  if pid > 0 then some ⟨pid⟩ else none

/-- `ProcessMemInfo` from `src/linux/proc.rs`.  The `u64` fields are `Nat`,
the `i32` fields are `Int`. -/
structure ProcessMemInfo where
  vm_peak : Nat
  vm_size : Nat
  vm_rss : Nat
  vm_swap : Nat
  oom_score : Int
  oom_score_adj : Int
  deriving DecidableEq, Repr

/-- `ProcessInfo` from `src/linux/proc.rs`.  `name` and `state` are the raw
strings read from `/proc/<pid>/status` (`state` is the whole `State:` value,
e.g. `"Z (zombie)"`, exactly as `from_pid` stores it). -/
structure ProcessInfo where
  pid : ProcessId
  name : String
  state : String
  ppid : Int
  mem_info : ProcessMemInfo
  deriving DecidableEq, Repr

instance : Inhabited ProcessInfo :=
  ⟨{ pid := ⟨1⟩, name := "", state := "", ppid := 0,
     mem_info := ⟨0, 0, 0, 0, 0, 0⟩ }⟩

/-- `ProcessInfo::is_oomable` from `src/linux/proc.rs` lines 102-108:
`!name.starts_with('[') && oom_score_adj > -1000 && state != "Z"`.
`starts_with('[')` takes a single char, i.e. tests the first character. -/
def ProcessInfo.is_oomable (p : ProcessInfo) : Bool :=
  !decide (p.name.toList.head? = some '[') &&
    p.mem_info.oom_score_adj > -1000 && decide (p.state ≠ "Z")

/-! ### Numeric parsing helpers (`str::parse` for `u64`/`i32`) -/

/-- Digit string to value (no sign). `none` on empty or non-digit input. -/
def parseDigits : List Char → Option Nat
  | [] => none
  | cs =>
    cs.foldl (fun acc c =>
      match acc with
      | none => none
      | some n => if c.isDigit then some (n * 10 + (c.toNat - '0'.toNat)) else none)
      (some 0)

/-- Rust `str::parse::<u64>`: optional leading `+`, digits, range check. -/
def parseU64 (cs : List Char) : Option Nat :=
  let body := match cs with
    | '+' :: rest => parseDigits rest
    | _ => parseDigits cs
  match body with
  | some n => if n < 2 ^ 64 then some n else none
  | none => none

/-- Rust `str::parse::<i32>`: optional sign, digits, range check. -/
def parseI32 (cs : List Char) : Option Int :=
  match cs with
  | '-' :: rest =>
    match parseDigits rest with
    | some n => if (n : Int) ≤ 2 ^ 31 then some (-(n : Int)) else none
    | none => none
  | '+' :: rest =>
    match parseDigits rest with
    | some n => if (n : Int) < 2 ^ 31 then some (n : Int) else none
    | none => none
  | _ =>
    match parseDigits cs with
    | some n => if (n : Int) < 2 ^ 31 then some (n : Int) else none
    | none => none

/-- `str::split_whitespace` on a character list: maximal runs of
non-whitespace characters, empty tokens dropped. -/
def splitWsAux : List Char → List Char → List (List Char)
  | [], acc => if acc.isEmpty then [] else [acc.reverse]
  | c :: cs, acc =>
    if c.isWhitespace then
      if acc.isEmpty then splitWsAux cs [] else acc.reverse :: splitWsAux cs []
    else splitWsAux cs (c :: acc)

def splitWs (l : List Char) : List (List Char) := splitWsAux l []

/-- `parse_kb_value` from `src/linux/proc.rs` lines 112-117:
first whitespace token parsed as `u64`, defaulting to `0`. -/
def parse_kb_value (value : List Char) : Nat :=
  match (splitWs value).head? with
  | some tok => (parseU64 tok).getD 0
  | none => 0

/-! ### `/proc/meminfo` parsing (`src/oom/pressure.rs` lines 97-132) -/

/-- `MemoryStats` from `src/oom/pressure.rs`. -/
structure MemoryStats where
  total_memory : Nat
  free_memory : Nat
  available_memory : Nat
  total_swap : Nat
  free_swap : Nat
  cached_memory : Nat
  deriving DecidableEq, Repr

/-- One iteration of the `get_memory_stats` line loop: split the line on
whitespace, skip lines with fewer than two tokens, parse token 1 as `u64`
(defaulting to 0), multiply by 1024, and store it under the recognized key. -/
def memStatsLine (stats : MemoryStats) (line : List Char) : MemoryStats :=
  let parts := splitWs line
  if parts.length < 2 then stats
  else
    let value := ((parseU64 (parts.getD 1 [])).getD 0) * 1024
    if parts.getD 0 [] = "MemTotal:".toList then { stats with total_memory := value }
    else if parts.getD 0 [] = "MemFree:".toList then { stats with free_memory := value }
    else if parts.getD 0 [] = "MemAvailable:".toList then { stats with available_memory := value }
    else if parts.getD 0 [] = "SwapTotal:".toList then { stats with total_swap := value }
    else if parts.getD 0 [] = "SwapFree:".toList then { stats with free_swap := value }
    else if parts.getD 0 [] = "Cached:".toList then { stats with cached_memory := value }
    else stats

/-- `PressureDetector::get_memory_stats`, parametrised by the lines of
`/proc/meminfo` (the successful I/O case; open/read errors surface as
`SyscallError` before any parsing and are not value-dependent). -/
def get_memory_stats (lines : List (List Char)) : MemoryStats :=
  lines.foldl memStatsLine ⟨0, 0, 0, 0, 0, 0⟩

/-! ### `/proc/<pid>/stat` parsing (`src/linux/proc_stat.rs`) -/

/-- `ProcessStat` from `src/linux/proc_stat.rs`. -/
structure ProcessStat where
  pid : ProcessId
  comm : List Char
  state : Char
  ppid : Int
  start_time : Nat
  utime : Nat
  stime : Nat
  cutime : Nat
  cstime : Nat
  deriving DecidableEq, Repr

/-- Outcome of `ProcessStat::parse_stat`: success, the `InvalidData` error it
returns (wrapped in `SyscallError` in the source), or a Rust panic from an
out-of-bounds slice or index. -/
inductive StatOutcome where
  | ok (s : ProcessStat)
  | invalidData
  | panicked
  deriving DecidableEq, Repr

/-- `str::find('(')`: index of the first occurrence. -/
def findIdx (c : Char) (l : List Char) : Option Nat :=
  l.findIdx? (· = c)

/-- `str::rfind(')')`: index of the last occurrence. -/
def rfindIdx (c : Char) (l : List Char) : Option Nat :=
  (l.reverse.findIdx? (· = c)).map (fun i => l.length - 1 - i)

/-- `ProcessStat::parse_stat` from `src/linux/proc_stat.rs` lines 39-81.
Field-for-field: first the whole content is split on whitespace and fewer
than 24 tokens is `InvalidData`; then `comm` is sliced between the first
`(` and the last `)` (a Rust slice with start past end panics); the
remainder after the `)` is re-split and fields 0, 2, 11, 12, 13, 14, 19 are
indexed without a bounds check (an out-of-range `Vec` index panics). -/
def parse_stat (content : List Char) (pid : ProcessId) : StatOutcome :=
  let parts := splitWs content
  if parts.length < 24 then .invalidData
  else
    match findIdx '(' content, rfindIdx ')' content with
    | none, _ => .invalidData
    | some _, none => .invalidData
    | some comm_start, some comm_end =>
      if comm_end < comm_start + 1 then .panicked
      else
        let comm := (content.drop (comm_start + 1)).take (comm_end - (comm_start + 1))
        let remainder := content.drop (comm_end + 1)
        let ps := splitWs remainder
        if ps.length ≤ 19 then .panicked
        else
          .ok { pid := pid
                comm := comm
                state := (ps.getD 0 []).headD '?'
                ppid := (parseI32 (ps.getD 2 [])).getD 0
                utime := (parseU64 (ps.getD 11 [])).getD 0
                stime := (parseU64 (ps.getD 12 [])).getD 0
                cutime := (parseU64 (ps.getD 13 [])).getD 0
                cstime := (parseU64 (ps.getD 14 [])).getD 0
                start_time := (parseU64 (ps.getD 19 [])).getD 0 }

/-- `ProcessStat::running_time` (`src/linux/proc_stat.rs` lines 92-103):
`uptime.saturating_sub(start_time / 100)`, in seconds.  `uptime` is the
first token of `/proc/uptime` parsed as `f64` (modelled as `ℚ`);
`Duration::as_secs` then truncates, so the runtime in whole seconds is the
floor of the saturated difference. -/
def running_time_secs (start_time : Nat) (uptime : ℚ) : Nat :=
  ⌊max 0 (uptime - (start_time : ℚ) / 100)⌋₊

/-- `calculate_runtime_score` from `src/linux/proc_stat.rs` lines 123-144,
taking the runtime in whole seconds. -/
def calculate_runtime_score_secs (runtime_secs : Nat) : ℚ :=
  if runtime_secs < 3600 then
    8 / 10 + (2 / 10 * ((3600 - runtime_secs : Nat) : ℚ) / 3600)
  else if runtime_secs < 86400 then
    3 / 10 + (5 / 10 * ((86400 - runtime_secs : Nat) : ℚ) / 86400)
  else
    3 / 10 * ((172800 - min runtime_secs 172800 : Nat) : ℚ) / 86400

/-- `calculate_runtime_score(&stat)` composed with `running_time`. -/
def calculate_runtime_score (stat : ProcessStat) (uptime : ℚ) : ℚ :=
  calculate_runtime_score_secs (running_time_secs stat.start_time uptime)

/-! ### Scorer (`src/oom/score.rs`) -/

/-- `OOMScorer` from `src/oom/score.rs`: the three weights (defaults 0.6,
0.2, 0.2 unless overridden by environment variables). -/
structure OOMScorer where
  mem_pressure_weight : ℚ
  runtime_weight : ℚ
  oom_score_adj_weight : ℚ
  deriving DecidableEq, Repr

/-- `OOMScorer::new()` with no environment overrides. -/
def OOMScorer.default : OOMScorer :=
  { mem_pressure_weight := 6 / 10, runtime_weight := 2 / 10,
    oom_score_adj_weight := 2 / 10 }

/-- `OOMScoreDetails` from `src/oom/score.rs`. -/
structure OOMScoreDetails where
  total_score : ℚ
  memory_score : ℚ
  runtime_score : ℚ
  adj_score : ℚ
  process : ProcessInfo
  deriving DecidableEq, Repr

/-- `OOMScorer::calculate_memory_score` (`src/oom/score.rs` lines 86-92):
`0.7 * vm_rss/total + 0.3 * vm_swap/total`.  `f64` division is modelled
exactly in `ℚ`; theorems about it assume `total_memory > 0` (the `f64` code
produces non-finite values at 0, the `ℚ` convention yields 0). -/
def calculate_memory_score (mem_info : ProcessMemInfo) (total_memory : Nat) : ℚ :=
  7 / 10 * ((mem_info.vm_rss : ℚ) / (total_memory : ℚ)) +
    3 / 10 * ((mem_info.vm_swap : ℚ) / (total_memory : ℚ))

/-- `OOMScorer::calculate_adj_score` (`src/oom/score.rs` lines 106-109). -/
def calculate_adj_score (oom_score_adj : Int) : ℚ :=
  (oom_score_adj : ℚ) / 1000

/-- Environment for the scorer's I/O: the result of
`ProcessStat::from_pid` for each pid (`none` = any read/parse failure) and
the `/proc/uptime` value. -/
structure StatEnv where
  statOf : ProcessId → Option ProcessStat
  uptime : ℚ

/-- `OOMScorer::calculate_runtime_score` (`src/oom/score.rs` lines 95-103):
the stat-based score, or `0.5` when the stat cannot be read. -/
def runtime_score_of (env : StatEnv) (p : ProcessInfo) : ℚ :=
  match env.statOf p.pid with
  | some stat => calculate_runtime_score stat env.uptime
  | none => 1 / 2

/-- `OOMScorer::calculate_score` from `src/oom/score.rs` lines 60-83. -/
def calculate_score (scorer : OOMScorer) (env : StatEnv) (process : ProcessInfo)
    (total_memory : Nat) : OOMScoreDetails :=
  let memory_score := calculate_memory_score process.mem_info total_memory
  let runtime_score := runtime_score_of env process
  let adj_score := calculate_adj_score process.mem_info.oom_score_adj
  { total_score := memory_score * scorer.mem_pressure_weight +
      runtime_score * scorer.runtime_weight + adj_score * scorer.oom_score_adj_weight
    memory_score := memory_score
    runtime_score := runtime_score
    adj_score := adj_score
    process := process }

/-! ### Pressure detector (`src/oom/pressure.rs`) -/

/-- `PressureThresholds` from `src/oom/pressure.rs`; the duration is in the
same abstract time unit as the `Nat` timestamps standing for `Instant`. -/
structure PressureThresholds where
  min_free_ratio : ℚ
  max_swap_ratio : ℚ
  pressure_duration : Nat
  deriving DecidableEq, Repr

/-- The mutable fields of `PressureDetector`. -/
structure DetectorState where
  pressure_start : Option Nat
  last_pressure_check : Nat
  deriving DecidableEq, Repr

/-- The `under_pressure` condition of `check_pressure` (`src/oom/pressure.rs`
lines 66-76).  The `f64` quotient `available/total` at `total = 0` is NaN or
`+inf`, for which `< min_free_ratio` is false; the explicit `0 < total`
guard reproduces that (the `ℚ` convention `x / 0 = 0` would not).  The swap
branch is guarded by `total_swap > 0` in the source itself.  `total_swap -
free_swap` is `u64` subtraction; `Nat` truncation stands in for it (the
kernel never reports `SwapFree > SwapTotal`). -/
def over_threshold (th : PressureThresholds) (stats : MemoryStats) : Bool :=
  (decide (0 < stats.total_memory) &&
    decide ((stats.available_memory : ℚ) / (stats.total_memory : ℚ) < th.min_free_ratio)) ||
  (if stats.total_swap > 0 then
    decide (((stats.total_swap - stats.free_swap : Nat) : ℚ) / (stats.total_swap : ℚ) >
      th.max_swap_ratio)
  else false)

/-- `PressureDetector::check_pressure` (`src/oom/pressure.rs` lines 62-94)
on one observation: memory snapshot `stats` read at timestamp `now`.
Returns the boolean result and the successor state.  `duration_since` is
truncated subtraction (the monotonic `Instant` guarantees `start ≤ now` in
any real trace).  Note the early `return Ok(true)` skips the
`last_pressure_check` update, exactly as in the source. -/
def check_pressure (th : PressureThresholds) (s : DetectorState) (stats : MemoryStats)
    (now : Nat) : Bool × DetectorState :=
  if over_threshold th stats then
    let start := s.pressure_start.getD now
    if th.pressure_duration ≤ now - start then
      (true, { s with pressure_start := some start })
    else
      (false, { pressure_start := some start, last_pressure_check := now })
  else
    (false, { pressure_start := none, last_pressure_check := now })

/-- One observation fed to `check_pressure`: the meminfo snapshot it reads
and the `Instant::now()` it takes. -/
structure PressureObs where
  stats : MemoryStats
  now : Nat
  deriving DecidableEq, Repr

/-- A sequence of `check_pressure` calls. -/
def run_detector (th : PressureThresholds) (s : DetectorState) :
    List PressureObs → DetectorState
  | [] => s
  | o :: os => run_detector th (check_pressure th s o.stats o.now).2 os

/-! ### Rust `std::collections::BinaryHeap` (max-heap), as used by
`get_candidates`.  Translated operation-for-operation from the standard
library's `push` / `pop` / `into_sorted_vec` (sift_up, sift_down_to_bottom,
sift_down_range), with the hole optimisation rendered as swaps.  All
accesses are in bounds whenever the source runs them; the bounds guards
only make the Lean functions total. -/

/-- `Vec::swap`, guarded (in-bounds in every reachable call). -/
def hSwap {α : Type} [Inhabited α] (l : List α) (i j : Nat) : List α :=
  if i < l.length ∧ j < l.length then
    (l.set i (l.getD j default)).set j (l.getD i default)
  else l

/-- The loop of `BinaryHeap::sift_up(start, pos)`: move the element at
`pos` up while it is strictly greater than its parent.  Structural fuel
recursion (the kernel cannot evaluate well-founded recursion): each step
moves to the parent `(pos-1)/2 < pos`, so `pos + 1` fuel always suffices
and the zero-fuel base case is unreachable from the wrapper. -/
def siftUpAux {α : Type} [Inhabited α] (le : α → α → Bool) :
    Nat → List α → Nat → Nat → List α
  | 0, l, _, _ => l
  | fuel + 1, l, start, pos =>
    if pos ≤ start then l
    else
      if le (l.getD pos default) (l.getD ((pos - 1) / 2) default) then l
      else siftUpAux le fuel (hSwap l pos ((pos - 1) / 2)) start ((pos - 1) / 2)

/-- `BinaryHeap::sift_up(start, pos)`. -/
def siftUp {α : Type} [Inhabited α] (le : α → α → Bool) (l : List α)
    (start pos : Nat) : List α :=
  siftUpAux le (pos + 1) l start pos

/-- `BinaryHeap::push`. -/
def hPush {α : Type} [Inhabited α] (le : α → α → Bool) (l : List α) (x : α) : List α :=
  siftUp le (l ++ [x]) 0 l.length

/-- The downward walk of `sift_down_to_bottom`: always move the hole to the
greater child (the right child on ties) until the bottom, returning the
final position.  Fuel recursion: the position strictly increases while
staying below `end_`, so `end_ + 1` fuel always suffices. -/
def walkDownAux {α : Type} [Inhabited α] (le : α → α → Bool) :
    Nat → List α → Nat → Nat → List α × Nat
  | 0, l, pos, _ => (l, pos)
  | fuel + 1, l, pos, end_ =>
    if 2 * pos + 1 + 1 < end_ then
      if le (l.getD (2 * pos + 1) default) (l.getD (2 * pos + 2) default) then
        walkDownAux le fuel (hSwap l pos (2 * pos + 2)) (2 * pos + 2) end_
      else
        walkDownAux le fuel (hSwap l pos (2 * pos + 1)) (2 * pos + 1) end_
    else if 2 * pos + 1 = end_ - 1 then
      (hSwap l pos (2 * pos + 1), 2 * pos + 1)
    else (l, pos)

def walkDown {α : Type} [Inhabited α] (le : α → α → Bool) (l : List α)
    (pos end_ : Nat) : List α × Nat :=
  walkDownAux le (end_ + 1) l pos end_

/-- `BinaryHeap::sift_down_to_bottom(pos)`: walk the hole to the bottom,
then sift the displaced element back up (bounded below by `pos`). -/
def siftDownToBottom {α : Type} [Inhabited α] (le : α → α → Bool) (l : List α)
    (pos : Nat) : List α :=
  siftUp le (walkDown le l pos l.length).1 pos (walkDown le l pos l.length).2

/-- `BinaryHeap::pop`: remove the last element, and if the heap remains
non-empty swap it into the root (returning the old root) and sift down. -/
def hPop {α : Type} [Inhabited α] (le : α → α → Bool) (l : List α) :
    Option α × List α :=
  match l.getLast? with
  | none => (none, l)
  | some item =>
    if l.dropLast.isEmpty then (some item, l.dropLast)
    else
      (some (l.dropLast.getD 0 default),
        siftDownToBottom le (l.dropLast.set 0 item) 0)

/-- The loop of `BinaryHeap::sift_down_range(pos, end)`: standard sift-down
restricted to `[0, end)`, choosing the greater child (right on ties) and
stopping as soon as the element is `≥` the child.  Fuel recursion as in
`walkDownAux`; `end_ + 1` fuel suffices. -/
def siftDownRangeAux {α : Type} [Inhabited α] (le : α → α → Bool) :
    Nat → List α → Nat → Nat → List α
  | 0, l, _, _ => l
  | fuel + 1, l, pos, end_ =>
    if 2 * pos + 1 + 1 < end_ then
      if le (l.getD (2 * pos + 1) default) (l.getD (2 * pos + 2) default) then
        if le (l.getD (2 * pos + 2) default) (l.getD pos default) then l
        else siftDownRangeAux le fuel (hSwap l pos (2 * pos + 2)) (2 * pos + 2) end_
      else
        if le (l.getD (2 * pos + 1) default) (l.getD pos default) then l
        else siftDownRangeAux le fuel (hSwap l pos (2 * pos + 1)) (2 * pos + 1) end_
    else if 2 * pos + 1 = end_ - 1 ∧
        ¬ le (l.getD (2 * pos + 1) default) (l.getD pos default) then
      hSwap l pos (2 * pos + 1)
    else l

def siftDownRange {α : Type} [Inhabited α] (le : α → α → Bool) (l : List α)
    (pos end_ : Nat) : List α :=
  siftDownRangeAux le (end_ + 1) l pos end_

/-- `BinaryHeap::into_sorted_vec`: repeatedly swap the root behind the
shrinking range and restore the heap on the prefix (structural recursion on
the shrinking range bound). -/
def intoSortedVecAux {α : Type} [Inhabited α] (le : α → α → Bool) :
    List α → Nat → List α
  | l, 0 => l
  | l, 1 => l
  | l, e + 2 =>
    intoSortedVecAux le (siftDownRange le (hSwap l 0 (e + 1)) 0 (e + 1)) (e + 1)

def intoSortedVec {α : Type} [Inhabited α] (le : α → α → Bool) (l : List α) : List α :=
  intoSortedVecAux le l l.length

/-- Rust `Iterator::max_by_key`: the last maximal element, or `none` on an
empty iterator.  The comparison is the `OrderedFloat` wrapper of
`src/oom/selector.rs` lines 148-164 (`partial_cmp().unwrap_or(Equal)`),
which on the `ℚ` scores is the standard linear order. -/
def maxStep {α : Type} (key : α → ℚ) (acc : Option α) (x : α) : Option α :=
  match acc with
  | none => some x
  | some a => if key a ≤ key x then some x else some a

def maxByKey {α : Type} (key : α → ℚ) (l : List α) : Option α :=
  l.foldl (maxStep key) none

/-! ### Selector (`src/oom/selector.rs`) -/

/-- `SelectorConfig` from `src/oom/selector.rs`. -/
structure SelectorConfig where
  min_candidates : Nat
  max_candidates : Nat
  allow_system_processes : Bool
  min_memory_threshold : Nat
  deriving DecidableEq, Repr

/-- `SelectorConfig::default()`. -/
def SelectorConfig.defaults : SelectorConfig :=
  { min_candidates := 3, max_candidates := 10, allow_system_processes := false,
    min_memory_threshold := 1024 * 1024 }

/-- `Candidate` from `src/oom/selector.rs`. -/
structure Candidate where
  score_details : OOMScoreDetails
  memory_saved : Nat
  deriving DecidableEq, Repr

instance : Inhabited Candidate :=
  ⟨⟨⟨0, 0, 0, 0, default⟩, 0⟩⟩

/-- Modelled from the spec: the source pushes `Candidate` into a
`BinaryHeap`, which requires an `Ord` implementation that `selector.rs`
never provides (the neighbouring `OOMScoreDetails` has one, comparing
`total_score` with `partial_cmp().unwrap_or(Equal)`, and §4.C of the spec
fixes "Total ordering is defined over the total score").  The candidate
order is therefore modelled as that of its `score_details`. -/
def candidateLe (a b : Candidate) : Bool :=
  decide (a.score_details.total_score ≤ b.score_details.total_score)

/-- `ProcessSelector::is_valid_candidate` (`src/oom/selector.rs` lines
115-134), parametrised by `is_system_process`, which the source calls but
never defines (spec §9 leaves it as an open configurable predicate); it is
kept abstract and every theorem below holds for any choice of it.  The
final `memory_impact ≥ 0.01` check is `f64`: at `total_memory = 0` the
quotient is `+inf` (true) for `vm_rss > 0` and NaN (false) for `vm_rss = 0`,
which the zero-total branch reproduces. -/
def is_valid_candidate (cfg : SelectorConfig) (is_system_process : ProcessInfo → Bool)
    (process : ProcessInfo) (memory_stats : MemoryStats) : Bool :=
  if !cfg.allow_system_processes && is_system_process process then false
  else if process.mem_info.vm_rss < cfg.min_memory_threshold then false
  else if !process.is_oomable then false
  else if memory_stats.total_memory = 0 then decide (0 < process.mem_info.vm_rss)
  else decide ((1 : ℚ) / 100 ≤ (process.mem_info.vm_rss : ℚ) / (memory_stats.total_memory : ℚ))

/-- `ProcessSelector::get_candidates` (`src/oom/selector.rs` lines 86-112):
fold the enumerated processes into a bounded `BinaryHeap` — `pop()`ing
whenever the size exceeds `max_candidates` — then `into_sorted_vec()`. -/
def candStep (cfg : SelectorConfig) (is_system_process : ProcessInfo → Bool)
    (scorer : OOMScorer) (env : StatEnv) (memory_stats : MemoryStats)
    (heap : List Candidate) (process : ProcessInfo) : List Candidate :=
  if is_valid_candidate cfg is_system_process process memory_stats then
    if (hPush candidateLe heap
        ⟨calculate_score scorer env process memory_stats.total_memory,
          process.mem_info.vm_rss⟩).length > cfg.max_candidates then
      (hPop candidateLe (hPush candidateLe heap
        ⟨calculate_score scorer env process memory_stats.total_memory,
          process.mem_info.vm_rss⟩)).2
    else
      hPush candidateLe heap
        ⟨calculate_score scorer env process memory_stats.total_memory,
          process.mem_info.vm_rss⟩
  else heap

def get_candidates (cfg : SelectorConfig) (is_system_process : ProcessInfo → Bool)
    (scorer : OOMScorer) (env : StatEnv) (memory_stats : MemoryStats)
    (processes : List ProcessInfo) : List Candidate :=
  intoSortedVec candidateLe
    (processes.foldl (candStep cfg is_system_process scorer env memory_stats) [])

/-- `ProcessSelector::select_process` (`src/oom/selector.rs` lines 62-83).
The source reads `/proc/meminfo` twice (inside `check_pressure` and again
as `memory_stats`); both reads are modelled by the single snapshot `stats`
(/proc is the same snapshot within one pass, spec §5), and the enumeration
`get_all_processes()` by the list `processes`. -/
def select_process (cfg : SelectorConfig) (is_system_process : ProcessInfo → Bool)
    (scorer : OOMScorer) (env : StatEnv) (th : PressureThresholds) (s : DetectorState)
    (stats : MemoryStats) (processes : List ProcessInfo) (now : Nat) :
    DetectorState × Option ProcessId :=
  if !(check_pressure th s stats now).1 then ((check_pressure th s stats now).2, none)
  else
    if (get_candidates cfg is_system_process scorer env stats processes).length <
        cfg.min_candidates then
      ((check_pressure th s stats now).2, none)
    else
      ((check_pressure th s stats now).2,
        (maxByKey (fun c => c.score_details.total_score)
          (get_candidates cfg is_system_process scorer env stats processes)).map
          (fun c => c.score_details.process.pid))

/-! ### Killer loop (`src/oom/killer.rs`) -/

/-- `KillerConfig` from `src/oom/killer.rs` (durations in the abstract
`Nat` time unit of the `Instant` model). -/
structure KillerConfig where
  selector : SelectorConfig
  pressure : PressureThresholds
  min_kill_interval : Nat
  check_interval : Nat
  deriving DecidableEq, Repr

/-- The mutable statistics of `OOMKiller`. -/
structure KillerStats where
  last_kill_time : Option Nat
  total_kills : Nat
  total_memory_reclaimed : Nat
  deriving DecidableEq, Repr

/-- `KillerStatus` from `src/oom/killer.rs`. -/
structure KillerStatus where
  last_kill_time : Option Nat
  total_kills : Nat
  total_memory_reclaimed : Nat
  running_since : Nat
  deriving DecidableEq, Repr

/-- The I/O a single `check_and_kill` iteration performs, as data: the
timestamp of the iteration (the source calls `Instant::now()` twice, for
the elapsed test and for the new `last_kill_time`; both are within the same
iteration and are modelled by one value), the outcome of
`selector.select_process()`, of the `ProcessInfo::from_pid` re-read, and of
the SIGKILL delivery. -/
structure KillEnv where
  now : Nat
  selectResult : Except SysErr (Option ProcessId)
  reread : ProcessId → Except SysErr ProcessInfo
  killSig : ProcessId → Except SysErr Unit

/-- Result of one `check_and_kill` call: the statistics afterwards, the
kills performed (pid with the re-read `vm_rss`), and the error returned, if
any.  On the error path the source returns before touching any statistic,
so the state comes back unchanged. -/
structure CakResult where
  stats : KillerStats
  killed : List (ProcessId × Nat)
  err : Option SysErr

/-- The body of `check_and_kill` after the rate-limit gate (`src/oom/killer.rs`
lines 118-136). -/
def checkAndKillGo (s : KillerStats) (e : KillEnv) : CakResult :=
  match e.selectResult with
  | .error er => ⟨s, [], some er⟩
  | .ok none => ⟨s, [], none⟩
  | .ok (some pid) =>
    match e.reread pid with
    | .error er => ⟨s, [], some er⟩
    | .ok process =>
      match e.killSig pid with
      | .error er => ⟨s, [], some er⟩
      | .ok _ =>
        ⟨{ last_kill_time := some e.now
           total_kills := s.total_kills + 1
           total_memory_reclaimed := s.total_memory_reclaimed + process.mem_info.vm_rss },
         [(pid, process.mem_info.vm_rss)], none⟩

/-- `OOMKiller::check_and_kill` (`src/oom/killer.rs` lines 110-137): skip
everything when a previous kill is less than `min_kill_interval` old. -/
def check_and_kill (cfg : KillerConfig) (s : KillerStats) (e : KillEnv) : CakResult :=
  match s.last_kill_time with
  | some t =>
    if e.now - t < cfg.min_kill_interval then ⟨s, [], none⟩
    else checkAndKillGo s e
  | none => checkAndKillGo s e

/-- The worker loop of `start` (`src/oom/killer.rs` lines 90-97): call
`check_and_kill` once per iteration, log-and-swallow its error, sleep.
Returns the final statistics and the time-stamped kill log. -/
def run_killer (cfg : KillerConfig) (s : KillerStats) :
    List KillEnv → KillerStats × List (Nat × ProcessId × Nat)
  | [] => (s, [])
  | e :: es =>
    let r := check_and_kill cfg s e
    let rest := run_killer cfg r.stats es
    (rest.1, r.killed.map (fun k => (e.now, k.1, k.2)) ++ rest.2)

/-- `OOMKiller` (`src/oom/killer.rs` lines 44-52): configuration, the
`running` flag, the statistics, and `running_since`.  The embedded selector
and detector are carried by the functions above. -/
structure OOMKiller where
  config : KillerConfig
  running : Bool
  kstats : KillerStats
  running_since : Nat
  deriving DecidableEq, Repr

/-- `OOMKiller::new` (`src/oom/killer.rs` lines 56-75). -/
def OOMKiller.new (config : KillerConfig) (now : Nat) : OOMKiller :=
  { config := config, running := false,
    kstats := { last_kill_time := none, total_kills := 0, total_memory_reclaimed := 0 },
    running_since := now }

/-- `OOMKiller::get_status` (`src/oom/killer.rs` lines 160-167). -/
def OOMKiller.get_status (k : OOMKiller) : KillerStatus :=
  { last_kill_time := k.kstats.last_kill_time, total_kills := k.kstats.total_kills,
    total_memory_reclaimed := k.kstats.total_memory_reclaimed,
    running_since := k.running_since }

/-- `OOMKiller::start` (`src/oom/killer.rs` lines 78-102): a no-op on an
already-running killer; otherwise set `running` and spawn a worker thread
that constructs a **fresh** `OOMKiller::new(config)` and loops on it.  The
spawned worker is returned as data (`none` when nothing was spawned). -/
def OOMKiller.start (k : OOMKiller) (spawnTime : Nat) : OOMKiller × Option OOMKiller :=
  if k.running then (k, none)
  else ({ k with running := true }, some (OOMKiller.new k.config spawnTime))

/-- The spawned worker thread's effect over a run: it mutates only its own
fresh killer's statistics (`src/oom/killer.rs` lines 90-97). -/
def workerRun (w : OOMKiller) (es : List KillEnv) : OOMKiller :=
  { w with kstats := (run_killer w.config w.kstats es).1 }

/-! ### Spec-side definitions (for refinement comparison only) -/

/-- The claim's `is_kernel_thread()`, written from the spec's words:
name starts with `[`, or `PPid == 0` while the pid is not 1. -/
def spec_is_kernel_thread (p : ProcessInfo) : Bool :=
  decide (p.name.toList.head? = some '[') || (p.ppid = 0 && p.pid.raw ≠ 1)

/-- The claim's `is_oomable()`, written from the spec's words: not a kernel
thread, `oom_score_adj > -1000`, and the state **letter** is not `Z`. -/
def spec_is_oomable (p : ProcessInfo) : Bool :=
  !spec_is_kernel_thread p && p.mem_info.oom_score_adj > -1000 &&
    p.state.toList.headD ' ' ≠ 'Z'

/-! ### Helper lemmas: heap operations only permute or drop elements -/

theorem mem_of_hSwap {α : Type} [Inhabited α] {l : List α} {i j : Nat} {y : α}
    (hy : y ∈ hSwap l i j) : y ∈ l := by
  unfold hSwap at hy
  split at hy
  · rename_i h
    rcases List.mem_or_eq_of_mem_set hy with hy1 | rfl
    · rcases List.mem_or_eq_of_mem_set hy1 with hy2 | rfl
      · exact hy2
      · rw [l.getD_eq_getElem default h.2]
        exact List.getElem_mem h.2
    · rw [l.getD_eq_getElem default h.1]
      exact List.getElem_mem h.1
  · exact hy

theorem mem_of_siftUpAux {α : Type} [Inhabited α] {le : α → α → Bool} {y : α} :
    ∀ (fuel : Nat) {l : List α} (start pos : Nat),
      y ∈ siftUpAux le fuel l start pos → y ∈ l := by
  intro fuel
  induction fuel with
  | zero => intro l start pos h; exact h
  | succ n ih =>
    intro l start pos h
    unfold siftUpAux at h
    split_ifs at h
    · exact h
    · exact h
    · exact mem_of_hSwap (ih _ _ h)

theorem mem_of_siftUp {α : Type} [Inhabited α] {le : α → α → Bool} {start : Nat} {y : α}
    {l : List α} {pos : Nat} (h : y ∈ siftUp le l start pos) : y ∈ l :=
  mem_of_siftUpAux _ _ _ h

theorem mem_of_walkDownAux {α : Type} [Inhabited α] {le : α → α → Bool} {y : α} :
    ∀ (fuel : Nat) {l : List α} (pos end_ : Nat),
      y ∈ (walkDownAux le fuel l pos end_).1 → y ∈ l := by
  intro fuel
  induction fuel with
  | zero => intro l pos end_ h; exact h
  | succ n ih =>
    intro l pos end_ h
    unfold walkDownAux at h
    split_ifs at h
    · exact mem_of_hSwap (ih _ _ h)
    · exact mem_of_hSwap (ih _ _ h)
    · exact mem_of_hSwap h
    · exact h

theorem mem_of_walkDown {α : Type} [Inhabited α] {le : α → α → Bool} {end_ : Nat} {y : α}
    {l : List α} {pos : Nat} (h : y ∈ (walkDown le l pos end_).1) : y ∈ l :=
  mem_of_walkDownAux _ _ _ h

theorem mem_of_siftDownToBottom {α : Type} [Inhabited α] {le : α → α → Bool}
    {l : List α} {pos : Nat} {y : α} (hy : y ∈ siftDownToBottom le l pos) : y ∈ l :=
  mem_of_walkDown (mem_of_siftUp hy)

theorem mem_of_hPush {α : Type} [Inhabited α] {le : α → α → Bool} {l : List α} {x y : α}
    (hy : y ∈ hPush le l x) : y ∈ l ∨ y = x := by
  have h := mem_of_siftUp hy
  rcases List.mem_append.mp h with h1 | h1
  · exact .inl h1
  · exact .inr (List.mem_singleton.mp h1)

theorem mem_of_hPop {α : Type} [Inhabited α] {le : α → α → Bool} {l : List α} {y : α}
    (hy : y ∈ (hPop le l).2) : y ∈ l := by
  unfold hPop at hy
  split at hy
  · exact hy
  · rename_i item heq
    split at hy
    · exact List.mem_of_mem_dropLast hy
    · have h1 := mem_of_siftDownToBottom hy
      rcases List.mem_or_eq_of_mem_set h1 with h2 | rfl
      · exact List.mem_of_mem_dropLast h2
      · exact List.mem_of_mem_getLast? heq

theorem mem_of_siftDownRangeAux {α : Type} [Inhabited α] {le : α → α → Bool} {y : α} :
    ∀ (fuel : Nat) {l : List α} (pos end_ : Nat),
      y ∈ siftDownRangeAux le fuel l pos end_ → y ∈ l := by
  intro fuel
  induction fuel with
  | zero => intro l pos end_ h; exact h
  | succ n ih =>
    intro l pos end_ h
    unfold siftDownRangeAux at h
    split_ifs at h
    · exact h
    · exact mem_of_hSwap (ih _ _ h)
    · exact h
    · exact mem_of_hSwap (ih _ _ h)
    · exact mem_of_hSwap h
    · exact h

theorem mem_of_siftDownRange {α : Type} [Inhabited α] {le : α → α → Bool} {end_ : Nat}
    {y : α} {l : List α} {pos : Nat} (h : y ∈ siftDownRange le l pos end_) : y ∈ l :=
  mem_of_siftDownRangeAux _ _ _ h

theorem mem_of_intoSortedVecAux {α : Type} [Inhabited α] {le : α → α → Bool} {y : α} :
    ∀ (end_ : Nat) {l : List α}, y ∈ intoSortedVecAux le l end_ → y ∈ l := by
  intro end_
  induction end_ using Nat.strong_induction_on with
  | _ e ih =>
    intro l h
    match e, h with
    | 0, h => exact h
    | 1, h => exact h
    | n + 2, h =>
      unfold intoSortedVecAux at h
      exact mem_of_hSwap (mem_of_siftDownRange (ih (n + 1) (by omega) h))

theorem mem_of_intoSortedVec {α : Type} [Inhabited α] {le : α → α → Bool} {l : List α}
    {y : α} (hy : y ∈ intoSortedVec le l) : y ∈ l :=
  mem_of_intoSortedVecAux _ hy

/-! ### Helper lemmas: `max_by_key` returns a maximal element of the list -/

theorem foldl_maxStep_mem {α : Type} (key : α → ℚ) :
    ∀ (l : List α) (acc : Option α) (a : α),
      l.foldl (maxStep key) acc = some a → acc = some a ∨ a ∈ l := by
  intro l
  induction l with
  | nil => intro acc a h; exact .inl h
  | cons x xs ih =>
    intro acc a h
    rcases ih (maxStep key acc x) a h with h1 | h1
    · cases acc with
      | none =>
        simp only [maxStep, Option.some.injEq] at h1
        exact .inr (h1 ▸ List.mem_cons_self x xs)
      | some b =>
        by_cases hc : key b ≤ key x
        · simp only [maxStep, if_pos hc, Option.some.injEq] at h1
          exact .inr (h1 ▸ List.mem_cons_self x xs)
        · simp only [maxStep, if_neg hc] at h1
          exact .inl h1
    · exact .inr (List.mem_cons_of_mem _ h1)

theorem foldl_maxStep_le {α : Type} (key : α → ℚ) :
    ∀ (l : List α) (acc : Option α) (a : α),
      l.foldl (maxStep key) acc = some a →
      (∀ b ∈ l, key b ≤ key a) ∧ (∀ c, acc = some c → key c ≤ key a) := by
  intro l
  induction l with
  | nil =>
    intro acc a h
    refine ⟨by simp, fun c hc => ?_⟩
    rw [hc] at h
    exact le_of_eq (congrArg key (Option.some.inj h))
  | cons x xs ih =>
    intro acc a h
    have hstep := ih (maxStep key acc x) a h
    have hx : key x ≤ key a := by
      cases acc with
      | none => exact hstep.2 x rfl
      | some b =>
        by_cases hc : key b ≤ key x
        · exact hstep.2 x (by simp only [maxStep, if_pos hc])
        · exact (le_of_not_le hc).trans (hstep.2 b (by simp only [maxStep, if_neg hc]))
    refine ⟨fun b hb => ?_, fun c hc => ?_⟩
    · rcases List.mem_cons.mp hb with rfl | hb'
      · exact hx
      · exact hstep.1 b hb'
    · cases acc with
      | none => exact (Option.noConfusion hc)
      | some b =>
        obtain rfl : b = c := Option.some.inj hc
        by_cases hcmp : key b ≤ key x
        · exact hcmp.trans hx
        · exact hstep.2 b (by simp only [maxStep, if_neg hcmp])

/-- `max_by_key` returns an element of the list whose key is maximal (and,
being a left fold that replaces on `≤`, the last such element). -/
theorem maxByKey_spec {α : Type} {key : α → ℚ} {l : List α} {a : α}
    (h : maxByKey key l = some a) : a ∈ l ∧ ∀ b ∈ l, key b ≤ key a := by
  have h1 := foldl_maxStep_mem key l none a h
  have h2 := foldl_maxStep_le key l none a h
  exact ⟨h1.resolve_left (by simp), h2.1⟩

/-! ### Helper lemmas: everything retained by `get_candidates` is the scored
record of some enumerated process that passed `is_valid_candidate` -/

theorem candStep_sound {cfg : SelectorConfig} {isp : ProcessInfo → Bool}
    {scorer : OOMScorer} {env : StatEnv} {stats : MemoryStats}
    {P : Candidate → Prop} {heap : List Candidate} {p : ProcessInfo}
    (hheap : ∀ c ∈ heap, P c)
    (hp : is_valid_candidate cfg isp p stats = true →
      P ⟨calculate_score scorer env p stats.total_memory, p.mem_info.vm_rss⟩) :
    ∀ c ∈ candStep cfg isp scorer env stats heap p, P c := by
  intro c hc
  unfold candStep at hc
  split at hc
  · rename_i hvalid
    split at hc
    · rcases mem_of_hPush (mem_of_hPop hc) with h1 | rfl
      · exact hheap c h1
      · exact hp hvalid
    · rcases mem_of_hPush hc with h1 | rfl
      · exact hheap c h1
      · exact hp hvalid
  · exact hheap c hc

theorem foldl_candStep_sound {cfg : SelectorConfig} {isp : ProcessInfo → Bool}
    {scorer : OOMScorer} {env : StatEnv} {stats : MemoryStats}
    (procs0 : List ProcessInfo) :
    ∀ (procs : List ProcessInfo) (heap : List Candidate),
      (∀ p ∈ procs, p ∈ procs0) →
      (∀ c ∈ heap, ∃ p ∈ procs0, is_valid_candidate cfg isp p stats = true ∧
        c = ⟨calculate_score scorer env p stats.total_memory, p.mem_info.vm_rss⟩) →
      ∀ c ∈ procs.foldl (candStep cfg isp scorer env stats) heap,
        ∃ p ∈ procs0, is_valid_candidate cfg isp p stats = true ∧
          c = ⟨calculate_score scorer env p stats.total_memory, p.mem_info.vm_rss⟩ := by
  intro procs
  induction procs with
  | nil => intro heap _ hheap c hc; exact hheap c hc
  | cons p ps ih =>
    intro heap hsub hheap c hc
    refine ih _ (fun q hq => hsub q (List.mem_cons_of_mem _ hq)) ?_ c hc
    exact candStep_sound hheap
      (fun hvalid => ⟨p, hsub p (List.mem_cons_self _ _), hvalid, rfl⟩)

theorem get_candidates_sound {cfg : SelectorConfig} {isp : ProcessInfo → Bool}
    {scorer : OOMScorer} {env : StatEnv} {stats : MemoryStats}
    {procs : List ProcessInfo} {c : Candidate}
    (hc : c ∈ get_candidates cfg isp scorer env stats procs) :
    ∃ p ∈ procs, is_valid_candidate cfg isp p stats = true ∧
      c = ⟨calculate_score scorer env p stats.total_memory, p.mem_info.vm_rss⟩ := by
  unfold get_candidates at hc
  exact foldl_candStep_sound procs procs [] (fun _ h => h) (by simp)
    c (mem_of_intoSortedVec hc)

theorem calculate_score_process (scorer : OOMScorer) (env : StatEnv)
    (p : ProcessInfo) (T : Nat) : (calculate_score scorer env p T).process = p := rfl

/-- Soundness of `select_process`: a returned pid belongs to an enumerated
process that passed `is_valid_candidate`, and its candidate record carries
the maximal total score of the retained candidate list. -/
theorem select_process_sound {cfg : SelectorConfig} {isp : ProcessInfo → Bool}
    {scorer : OOMScorer} {env : StatEnv} {th : PressureThresholds} {s s' : DetectorState}
    {stats : MemoryStats} {procs : List ProcessInfo} {now : Nat} {pid : ProcessId}
    (h : select_process cfg isp scorer env th s stats procs now = (s', some pid)) :
    ∃ c ∈ get_candidates cfg isp scorer env stats procs,
      c.score_details.process.pid = pid ∧
      (∀ c' ∈ get_candidates cfg isp scorer env stats procs,
        c'.score_details.total_score ≤ c.score_details.total_score) ∧
      ∃ p ∈ procs, c.score_details.process = p ∧
        is_valid_candidate cfg isp p stats = true := by
  unfold select_process at h
  split at h
  · exact absurd (congrArg Prod.snd h) (by simp)
  · split at h
    · exact absurd (congrArg Prod.snd h) (by simp)
    · have h2 := congrArg Prod.snd h
      simp only [Option.map_eq_some'] at h2
      obtain ⟨c, hmax, hpid⟩ := h2
      obtain ⟨hmem, hmaxle⟩ := maxByKey_spec hmax
      obtain ⟨p, hpmem, hvalid, hc⟩ := get_candidates_sound hmem
      exact ⟨c, hmem, hpid, hmaxle, p, hpmem,
        by rw [hc]; exact calculate_score_process scorer env p stats.total_memory, hvalid⟩


/-! ### Concrete inputs for the evaluation theorems -/

/-- Stat environment in which every `ProcessStat::from_pid` fails (runtime
subscore falls back to 0.5). -/
def noStats : StatEnv := ⟨fun _ => none, 0⟩

/-- A meminfo snapshot with 1000 bytes total and 10 available (1 % free,
below the default 5 % threshold). -/
def exStats : MemoryStats := ⟨1000, 0, 10, 0, 0, 0⟩

/-- The default pressure thresholds with dwell 5 time units. -/
def exThresholds : PressureThresholds := ⟨1 / 20, 4 / 5, 5⟩

/-- Detector state whose pressure episode started at time 0. -/
def exDetState : DetectorState := ⟨some 0, 0⟩

/-- A sleeping user process with the given pid, name, RSS and adjustment. -/
def exProcess (pid : Int) (name : String) (rss : Nat) (adj : Int) : ProcessInfo :=
  ⟨⟨pid⟩, name, "S", 1, ⟨0, 0, rss, 0, 0, adj⟩⟩

/-! ### Claim theorems -/

/-- Helper: `is_valid_candidate` accepts only `is_oomable` processes
(`src/oom/selector.rs` lines 126-129). -/
theorem is_oomable_of_valid {cfg : SelectorConfig} {isp : ProcessInfo → Bool}
    {p : ProcessInfo} {stats : MemoryStats}
    (h : is_valid_candidate cfg isp p stats = true) : p.is_oomable = true := by
  unfold is_valid_candidate at h
  split_ifs at h with h1 h2 h3 h4
  all_goals
    cases hb : p.is_oomable
    · exact absurd (by simp [hb]) h3
    · rfl

/-- **C1** (counterexample).  The claim says `is_oomable()` holds exactly
when the process is not a kernel thread (name starting `[` or PPid 0 with
pid ≠ 1), `oom_score_adj > -1000`, and the state letter is not `Z`.  The
record below — a PPid-0, pid-5 process whose `State` value is the realistic
`"Z (zombie)"` — is a kernel thread and a zombie under that reading, yet the
source's `is_oomable` returns `true`: the code has no PPid test at all and
compares the whole state string against the single letter `"Z"`. -/
theorem c1_is_oomable_claim_counterexample :
    ProcessInfo.is_oomable ⟨⟨5⟩, "worker", "Z (zombie)", 0, ⟨0, 0, 0, 0, 0, 0⟩⟩ = true ∧
    spec_is_oomable ⟨⟨5⟩, "worker", "Z (zombie)", 0, ⟨0, 0, 0, 0, 0, 0⟩⟩ = false := by
  exact ⟨by decide, by decide⟩

/-- **C1** (amended).  `is_oomable()` holds exactly when the name does not
start with `[`, `oom_score_adj > -1000`, and the stored state string is not
exactly `"Z"`; consequently any pid returned by `select_process` belongs to
an enumerated process that passed `is_valid_candidate`, hence is `is_oomable`
— so a process with `oom_score_adj ≤ -1000` (in particular exactly `-1000`),
one whose state string is exactly `"Z"`, or one whose name starts with `[`
is never a selection result.  (No PPid-based exclusion exists, and a zombie
whose state reads `"Z (zombie)"` is not excluded.) -/
theorem c1_is_oomable_characterization :
    (∀ p : ProcessInfo, p.is_oomable = true ↔
      (p.name.toList.head? ≠ some '[' ∧ p.mem_info.oom_score_adj > -1000 ∧ p.state ≠ "Z")) ∧
    (∀ (cfg : SelectorConfig) (isp : ProcessInfo → Bool) (scorer : OOMScorer)
      (env : StatEnv) (th : PressureThresholds) (s s' : DetectorState)
      (stats : MemoryStats) (procs : List ProcessInfo) (now : Nat) (pid : ProcessId),
      select_process cfg isp scorer env th s stats procs now = (s', some pid) →
      ∃ p ∈ procs, p.pid = pid ∧ is_valid_candidate cfg isp p stats = true ∧
        p.is_oomable = true ∧ p.mem_info.oom_score_adj > -1000 ∧ p.state ≠ "Z" ∧
        p.name.toList.head? ≠ some '[') := by
  have hchar : ∀ p : ProcessInfo, p.is_oomable = true ↔
      (p.name.toList.head? ≠ some '[' ∧ p.mem_info.oom_score_adj > -1000 ∧ p.state ≠ "Z") := by
    intro p
    simp [ProcessInfo.is_oomable, Bool.and_eq_true, decide_eq_true_eq,
      Bool.not_eq_true', and_assoc]
  refine ⟨hchar, ?_⟩
  intro cfg isp scorer env th s s' stats procs now pid h
  obtain ⟨c, _, hpid, _, p, hpmem, hproc, hvalid⟩ := select_process_sound h
  have hoom := is_oomable_of_valid hvalid
  obtain ⟨h1, h2, h3⟩ := (hchar p).mp hoom
  exact ⟨p, hpmem, by rw [← hproc, hpid], hvalid, hoom, h2, h3, h1⟩

/-- **C1** (witness for the amended theorem): a concrete run in which
`select_process` returns pid 7, instantiating the selection conjunct. -/
theorem c1_selection_witness :
    ∃ p ∈ [exProcess 7 "x" 100 0], p.pid = (⟨7⟩ : ProcessId) ∧
      is_valid_candidate ⟨1, 10, true, 1⟩ (fun _ => false) p exStats = true ∧
      p.is_oomable = true ∧ p.mem_info.oom_score_adj > -1000 ∧ p.state ≠ "Z" ∧
      p.name.toList.head? ≠ some '[' :=
  c1_is_oomable_characterization.2 ⟨1, 10, true, 1⟩ (fun _ => false) OOMScorer.default
    noStats exThresholds exDetState ⟨some 0, 0⟩ exStats [exProcess 7 "x" 100 0] 10 ⟨7⟩
    (by decide)

/-- **C2**: the claim says that with more eligible processes than
`max_candidates` the retained pool consists of the `max_candidates`
**highest**-scoring ones and that the overall highest-scoring eligible
process is always retained.  Evaluating the code: with `max_candidates = 1`
and two eligible processes of total scores 71/500 (pid 7) and 92/500
(pid 8), the retained pool is the **lower**-scoring pid 7 — Rust's
`BinaryHeap` is a max-heap, so the `pop()` on overflow evicts the
highest-scoring candidate — and `select_process` then returns pid 7. -/
theorem c2_bounded_pool_eval :
    ((get_candidates ⟨1, 1, true, 1⟩ (fun _ => false) OOMScorer.default noStats exStats
      [exProcess 7 "x" 100 0, exProcess 8 "y" 200 0]).map
        (fun c => c.score_details.process.pid) = [⟨7⟩]) ∧
    (select_process ⟨1, 1, true, 1⟩ (fun _ => false) OOMScorer.default noStats exThresholds
      exDetState exStats [exProcess 7 "x" 100 0, exProcess 8 "y" 200 0] 10).2 =
      some ⟨7⟩ ∧
    (calculate_score OOMScorer.default noStats (exProcess 7 "x" 100 0) 1000).total_score <
      (calculate_score OOMScorer.default noStats (exProcess 8 "y" 200 0) 1000).total_score ∧
    is_valid_candidate ⟨1, 1, true, 1⟩ (fun _ => false) (exProcess 8 "y" 200 0) exStats =
      true := by
  exact ⟨by decide, by decide, by decide, by decide⟩

/-- **C3** (counterexample).  The claim says equal-total-score ties are
broken in favour of the larger `vm_rss` (then smaller pid).  Below, pids 3
and 10 have exactly equal total scores (23/125), pid 10 has the larger
`vm_rss` (200 vs 100), yet `select_process` returns pid 3: the source's
`max_by_key` compares only `OrderedFloat(total_score)` and keeps the last
maximal element of the heap-ordered vector — no `vm_rss` or pid tie-break
exists. -/
theorem c3_tie_break_counterexample :
    (calculate_score OOMScorer.default noStats (exProcess 3 "b" 100 210) 1000).total_score =
      (calculate_score OOMScorer.default noStats (exProcess 10 "a" 200 0) 1000).total_score ∧
    (exProcess 3 "b" 100 210).mem_info.vm_rss < (exProcess 10 "a" 200 0).mem_info.vm_rss ∧
    (select_process ⟨2, 10, true, 1⟩ (fun _ => false) OOMScorer.default noStats exThresholds
      exDetState exStats [exProcess 3 "b" 100 210, exProcess 10 "a" 200 0] 10).2 =
      some ⟨3⟩ := by
  exact ⟨by decide, by decide, by decide⟩

/-- **C3** (amended).  With at least `min_candidates` retained candidates,
`select_process` returns the pid of a retained candidate whose total score
is maximal among the retained candidates; equal-score ties are resolved by
the position the candidates take in the heap's sorted vector (the last
maximal element wins), which depends on the enumeration order rather than on
`vm_rss` or pid; the result is a function of the input snapshot (including
its order), hence deterministic. -/
theorem c3_max_total_score_selected :
    ∀ (cfg : SelectorConfig) (isp : ProcessInfo → Bool) (scorer : OOMScorer)
      (env : StatEnv) (th : PressureThresholds) (s s' : DetectorState)
      (stats : MemoryStats) (procs : List ProcessInfo) (now : Nat) (pid : ProcessId),
      select_process cfg isp scorer env th s stats procs now = (s', some pid) →
      ∃ c ∈ get_candidates cfg isp scorer env stats procs,
        c.score_details.process.pid = pid ∧
        ∀ c' ∈ get_candidates cfg isp scorer env stats procs,
          c'.score_details.total_score ≤ c.score_details.total_score := by
  intro cfg isp scorer env th s s' stats procs now pid h
  obtain ⟨c, hmem, hpid, hmax, _⟩ := select_process_sound h
  exact ⟨c, hmem, hpid, hmax⟩

/-- **C3** (witness for the amended theorem) at a concrete two-process run. -/
theorem c3_selection_witness :
    ∃ c ∈ get_candidates ⟨2, 10, true, 1⟩ (fun _ => false) OOMScorer.default noStats
        exStats [exProcess 3 "b" 100 210, exProcess 10 "a" 200 0],
      c.score_details.process.pid = (⟨3⟩ : ProcessId) ∧
      ∀ c' ∈ get_candidates ⟨2, 10, true, 1⟩ (fun _ => false) OOMScorer.default noStats
          exStats [exProcess 3 "b" 100 210, exProcess 10 "a" 200 0],
        c'.score_details.total_score ≤ c.score_details.total_score :=
  c3_max_total_score_selected ⟨2, 10, true, 1⟩ (fun _ => false) OOMScorer.default
    noStats exThresholds exDetState ⟨some 0, 0⟩ exStats
    [exProcess 3 "b" 100 210, exProcess 10 "a" 200 0] 10 ⟨3⟩ (by decide)


/-! ### Pressure detector lemmas (C4) -/

/-- `check_pressure` written as one case split (pure unfolding). -/
theorem check_pressure_cases (th : PressureThresholds) (s : DetectorState)
    (stats : MemoryStats) (now : Nat) :
    check_pressure th s stats now =
      if over_threshold th stats then
        if th.pressure_duration ≤ now - s.pressure_start.getD now then
          (true, { s with pressure_start := some (s.pressure_start.getD now) })
        else (false, ⟨some (s.pressure_start.getD now), now⟩)
      else (false, ⟨none, now⟩) := rfl

/-- If the final `pressure_start` of a run is `some t`, then either it was
already `some t` initially and every observation of the run was
over-threshold, or some observation at time `t` set it and it plus every
later observation was over-threshold. -/
theorem run_detector_start_inv (th : PressureThresholds) :
    ∀ (obs : List PressureObs) (s : DetectorState) (t : Nat),
      (run_detector th s obs).pressure_start = some t →
      (s.pressure_start = some t ∧ ∀ o ∈ obs, over_threshold th o.stats = true) ∨
      (∃ pre o₀ post, obs = pre ++ o₀ :: post ∧ t = o₀.now ∧
        over_threshold th o₀.stats = true ∧
        ∀ o ∈ post, over_threshold th o.stats = true) := by
  intro obs
  induction obs with
  | nil => intro s t h; exact .inl ⟨h, by simp⟩
  | cons o os ih =>
    intro s t h
    have hstep : run_detector th s (o :: os) =
        run_detector th (check_pressure th s o.stats o.now).2 os := rfl
    rw [hstep] at h
    rcases ih _ t h with ⟨hst, hall⟩ | ⟨pre, o₀, post, heq, ht, hover, hpost⟩
    · rw [check_pressure_cases] at hst
      by_cases hov : over_threshold th o.stats
      · simp only [if_pos hov] at hst
        have hst' : some (s.pressure_start.getD o.now) = some t := by
          split_ifs at hst <;> exact hst
        cases hs : s.pressure_start with
        | none =>
          right
          refine ⟨[], o, os, rfl, ?_, hov, hall⟩
          rw [hs] at hst'
          exact (Option.some.inj hst').symm
        | some u =>
          left
          rw [hs] at hst'
          refine ⟨hst', ?_⟩
          intro o' ho'
          rcases List.mem_cons.mp ho' with rfl | h'
          · exact hov
          · exact hall o' h'
      · simp only [if_neg hov] at hst
        exact absurd hst (by simp)
    · right
      exact ⟨o :: pre, o₀, post, by rw [heq]; rfl, ht, hover, hpost⟩

/-- **C4** (counterexample).  The claim says a call that observes an
over-threshold reading while `pressure_start` is unset records the start
and returns **false**.  With `pressure_duration = 0` the source records the
start and immediately returns **true** (it re-checks the dwell after
setting `pressure_start = now`, and `now - now ≥ 0`). -/
theorem c4_first_call_counterexample :
    over_threshold ⟨1 / 20, 4 / 5, 0⟩ exStats = true ∧
    (⟨none, 0⟩ : DetectorState).pressure_start = none ∧
    check_pressure ⟨1 / 20, 4 / 5, 0⟩ ⟨none, 0⟩ exStats 5 = (true, ⟨some 5, 0⟩) := by
  exact ⟨by decide, rfl, by decide⟩

/-- **C4** (amended).  For a positive `pressure_duration` (the claim's
behaviour; with a zero dwell the first over-threshold call already returns
true): an over-threshold call with `pressure_start` unset records
`pressure_start = now` and returns false; a call returns true exactly when
the reading is over threshold and `pressure_start` was already set at least
`pressure_duration` ago; a true-returning call keeps `pressure_start` set
(it is never cleared by it); a below-threshold reading clears
`pressure_start` and returns false; and over any run from a fresh detector
with strictly increasing clock readings, a set `pressure_start = t` implies
every observation taken at or after time `t` was over threshold. -/
theorem c4_pressure_dwell :
    (∀ (th : PressureThresholds) (s : DetectorState) (stats : MemoryStats) (now : Nat),
      0 < th.pressure_duration → over_threshold th stats = true →
      s.pressure_start = none →
      check_pressure th s stats now = (false, ⟨some now, now⟩)) ∧
    (∀ (th : PressureThresholds) (s : DetectorState) (stats : MemoryStats) (now : Nat),
      0 < th.pressure_duration →
      ((check_pressure th s stats now).1 = true ↔
        over_threshold th stats = true ∧
        ∃ t, s.pressure_start = some t ∧ th.pressure_duration ≤ now - t)) ∧
    (∀ (th : PressureThresholds) (s : DetectorState) (stats : MemoryStats) (now : Nat),
      (check_pressure th s stats now).1 = true →
      (check_pressure th s stats now).2.pressure_start =
        some (s.pressure_start.getD now)) ∧
    (∀ (th : PressureThresholds) (s : DetectorState) (stats : MemoryStats) (now : Nat),
      over_threshold th stats = false →
      check_pressure th s stats now = (false, ⟨none, now⟩)) ∧
    (∀ (th : PressureThresholds) (s : DetectorState) (obs : List PressureObs) (t : Nat),
      s.pressure_start = none →
      obs.Pairwise (fun a b => a.now < b.now) →
      (run_detector th s obs).pressure_start = some t →
      ∀ o ∈ obs, t ≤ o.now → over_threshold th o.stats = true) := by
  refine ⟨?_, ?_, ?_, ?_, ?_⟩
  · intro th s stats now hdur hov hnone
    rw [check_pressure_cases]
    simp only [if_pos hov, hnone, Option.getD_none]
    rw [if_neg (by omega)]
  · intro th s stats now hdur
    rw [check_pressure_cases]
    constructor
    · intro h
      split_ifs at h with hov hdwell
      refine ⟨hov, ?_⟩
      cases hs : s.pressure_start with
      | none =>
        rw [hs] at hdwell
        simp only [Option.getD_none] at hdwell
        omega
      | some u => rw [hs] at hdwell; exact ⟨u, rfl, hdwell⟩
    · rintro ⟨hov, t, hst, hdwell⟩
      rw [if_pos hov, hst]
      simp only [Option.getD_some]
      rw [if_pos hdwell]
  · intro th s stats now h
    rw [check_pressure_cases] at h ⊢
    split_ifs at h ⊢ with hov hdwell
    rfl
  · intro th s stats now hov
    rw [check_pressure_cases, if_neg (by simp [hov])]
  · intro th s obs t hnone hpw hrun o ho hto
    rcases run_detector_start_inv th obs s t hrun with ⟨hst, hall⟩ | ⟨pre, o₀, post, heq, ht, hover, hpost⟩
    · exact hall o ho
    · subst heq
      rcases List.mem_append.mp ho with hpre | hmid
      · obtain ⟨-, -, hcross⟩ := List.pairwise_append.mp hpw
        have := hcross o hpre o₀ (List.mem_cons_self _ _)
        omega
      · rcases List.mem_cons.mp hmid with rfl | hpost'
        · exact hover
        · exact hpost o hpost'

/-- **C4** (witness for the amended theorem): the first over-threshold
observation of a fresh detector with the default 5-unit dwell records the
start time and returns false. -/
theorem c4_first_call_witness :
    0 < exThresholds.pressure_duration ∧
    check_pressure exThresholds ⟨none, 0⟩ exStats 7 = (false, ⟨some 7, 7⟩) :=
  ⟨by decide, c4_pressure_dwell.1 exThresholds ⟨none, 0⟩ exStats 7 (by decide)
    (by decide) rfl⟩


/-! ### Killer loop lemmas (C5, C6) -/

/-- Case analysis of one `check_and_kill` body run: it either returns an
error or selects nothing (statistics untouched, nothing killed), or kills
exactly one process and updates all three statistics together. -/
theorem checkAndKillGo_cases (s : KillerStats) (e : KillEnv) :
    (∃ er, checkAndKillGo s e = ⟨s, [], some er⟩) ∨
    checkAndKillGo s e = ⟨s, [], none⟩ ∨
    ∃ pid rss, checkAndKillGo s e =
      ⟨⟨some e.now, s.total_kills + 1, s.total_memory_reclaimed + rss⟩,
        [(pid, rss)], none⟩ := by
  unfold checkAndKillGo
  cases hsel : e.selectResult with
  | error er => exact .inl ⟨er, rfl⟩
  | ok opid =>
    cases opid with
    | none => exact .inr (.inl rfl)
    | some pid =>
      dsimp only
      cases hr : e.reread pid with
      | error er => exact .inl ⟨er, rfl⟩
      | ok p =>
        dsimp only
        cases hk : e.killSig pid with
        | error er => exact .inl ⟨er, rfl⟩
        | ok u => exact .inr (.inr ⟨pid, p.mem_info.vm_rss, rfl⟩)

/-- Case analysis of `check_and_kill`, with the rate-limit gate: a kill can
only happen when no previous kill is less than `min_kill_interval` old. -/
theorem check_and_kill_cases (cfg : KillerConfig) (s : KillerStats) (e : KillEnv) :
    (∃ er, check_and_kill cfg s e = ⟨s, [], some er⟩) ∨
    check_and_kill cfg s e = ⟨s, [], none⟩ ∨
    (∃ pid rss, check_and_kill cfg s e =
        ⟨⟨some e.now, s.total_kills + 1, s.total_memory_reclaimed + rss⟩,
          [(pid, rss)], none⟩ ∧
      ∀ t, s.last_kill_time = some t → cfg.min_kill_interval ≤ e.now - t) := by
  unfold check_and_kill
  cases hlast : s.last_kill_time with
  | none =>
    dsimp only
    rcases checkAndKillGo_cases s e with ⟨er, hgo⟩ | hgo | ⟨pid, rss, hgo⟩
    · exact .inl ⟨er, hgo⟩
    · exact .inr (.inl hgo)
    · refine .inr (.inr ⟨pid, rss, hgo, fun t ht => ?_⟩)
      exact absurd ht (by simp)
  | some t =>
    dsimp only
    by_cases hgate : e.now - t < cfg.min_kill_interval
    · rw [if_pos hgate]
      exact .inr (.inl rfl)
    · rw [if_neg hgate]
      rcases checkAndKillGo_cases s e with ⟨er, hgo⟩ | hgo | ⟨pid, rss, hgo⟩
      · exact .inl ⟨er, hgo⟩
      · exact .inr (.inl hgo)
      · refine .inr (.inr ⟨pid, rss, hgo, fun t' ht' => ?_⟩)
        obtain rfl : t = t' := Option.some.inj ht'
        omega

/-- Invariant for the kill-spacing proof: over a run with non-decreasing
clock readings, starting from a state whose `last_kill_time` (if set) is
not in the future, all kills are at least `min_kill_interval` after that
time and consecutive kills are at least `min_kill_interval` apart. -/
theorem run_killer_spacing (cfg : KillerConfig) :
    ∀ (es : List KillEnv) (s : KillerStats),
      es.Pairwise (fun a b => a.now ≤ b.now) →
      (∀ t, s.last_kill_time = some t → ∀ e ∈ es, t ≤ e.now) →
      ((∀ t, s.last_kill_time = some t →
        ∀ k ∈ (run_killer cfg s es).2, t + cfg.min_kill_interval ≤ k.1) ∧
       ((run_killer cfg s es).2).Chain'
         (fun k1 k2 => k1.1 + cfg.min_kill_interval ≤ k2.1)) := by
  intro es
  induction es with
  | nil =>
    intro s _ _
    exact ⟨fun t _ k hk => absurd hk (by simp [run_killer]),
      by simp [run_killer]⟩
  | cons e es ih =>
    intro s hpw hbound
    obtain ⟨hhead, hpw'⟩ := List.pairwise_cons.mp hpw
    have hrun : run_killer cfg s (e :: es) =
        ((run_killer cfg (check_and_kill cfg s e).stats es).1,
          (check_and_kill cfg s e).killed.map (fun k => (e.now, k.1, k.2)) ++
            (run_killer cfg (check_and_kill cfg s e).stats es).2) := rfl
    rcases check_and_kill_cases cfg s e with ⟨er, hstep⟩ | hstep | ⟨pid, rss, hstep, hgate⟩
    · rw [hrun, hstep]
      simp only [List.map_nil, List.nil_append]
      exact ih s hpw' (fun t ht e' he' => hbound t ht e' (List.mem_cons_of_mem _ he'))
    · rw [hrun, hstep]
      simp only [List.map_nil, List.nil_append]
      exact ih s hpw' (fun t ht e' he' => hbound t ht e' (List.mem_cons_of_mem _ he'))
    · rw [hrun, hstep]
      simp only [List.map_cons, List.map_nil, List.singleton_append]
      have hbound' : ∀ t, (some e.now : Option Nat) = some t → ∀ e' ∈ es, t ≤ e'.now := by
        intro t ht e' he'
        obtain rfl : e.now = t := Option.some.inj ht
        exact hhead e' he'
      obtain ⟨ihbound, ihchain⟩ := ih ⟨some e.now, s.total_kills + 1,
        s.total_memory_reclaimed + rss⟩ hpw' hbound'
      have hrest : ∀ k ∈ (run_killer cfg ⟨some e.now, s.total_kills + 1,
          s.total_memory_reclaimed + rss⟩ es).2, e.now + cfg.min_kill_interval ≤ k.1 :=
        ihbound e.now rfl
      constructor
      · intro t ht k hk
        have htle : t ≤ e.now := hbound t ht e (List.mem_cons_self _ _)
        have hIle : cfg.min_kill_interval ≤ e.now - t := hgate t ht
        rcases List.mem_cons.mp hk with rfl | hk'
        · simp only
          omega
        · have := hrest k hk'
          omega
      · rw [List.chain'_cons']
        refine ⟨fun b hb => ?_, ihchain⟩
        have hbmem := List.mem_of_mem_head? hb
        exact hrest b hbmem

/-- **C5**: at most one process is killed per `check_and_kill` call; a call
made while a previous kill is less than `min_kill_interval` old returns
immediately — statistics untouched, nothing killed, no error; and over any
run of the loop from a fresh killer with a monotone clock, consecutive
kills are at least `min_kill_interval` apart. -/
theorem c5_rate_limit :
    (∀ (cfg : KillerConfig) (s : KillerStats) (e : KillEnv) (t : Nat),
      s.last_kill_time = some t → e.now - t < cfg.min_kill_interval →
      check_and_kill cfg s e = ⟨s, [], none⟩) ∧
    (∀ (cfg : KillerConfig) (s : KillerStats) (e : KillEnv),
      (check_and_kill cfg s e).killed.length ≤ 1) ∧
    (∀ (cfg : KillerConfig) (s : KillerStats) (es : List KillEnv),
      s.last_kill_time = none →
      es.Pairwise (fun a b => a.now ≤ b.now) →
      ((run_killer cfg s es).2).Chain'
        (fun k1 k2 => k1.1 + cfg.min_kill_interval ≤ k2.1)) := by
  refine ⟨?_, ?_, ?_⟩
  · intro cfg s e t hlast hgate
    unfold check_and_kill
    rw [hlast]
    dsimp only
    rw [if_pos hgate]
  · intro cfg s e
    rcases check_and_kill_cases cfg s e with ⟨er, hstep⟩ | hstep | ⟨pid, rss, hstep, -⟩
    · rw [hstep]
      simp
    · rw [hstep]
      simp
    · rw [hstep]
      simp
  · intro cfg s es hnone hpw
    refine (run_killer_spacing cfg es s hpw ?_).2
    intro t ht
    rw [hnone] at ht
    exact absurd ht (by simp)

/-- **C5** (witness): with `min_kill_interval = 5`, a call 2 time units
after the last kill skips without touching the statistics. -/
theorem c5_skip_witness :
    (⟨some 10, 2, 30⟩ : KillerStats).last_kill_time = some 10 ∧
    (12 : Nat) - 10 < 5 ∧
    check_and_kill ⟨SelectorConfig.defaults, exThresholds, 5, 1⟩ ⟨some 10, 2, 30⟩
      ⟨12, .ok none, fun _ => .error .processNotFound, fun _ => .ok ()⟩ =
      ⟨⟨some 10, 2, 30⟩, [], none⟩ :=
  ⟨rfl, by decide,
    c5_rate_limit.1 ⟨SelectorConfig.defaults, exThresholds, 5, 1⟩ ⟨some 10, 2, 30⟩
      ⟨12, .ok none, fun _ => .error .processNotFound, fun _ => .ok ()⟩ 10 rfl (by decide)⟩

/-- **C6**: `total_kills` and `total_memory_reclaimed` are monotone
non-decreasing and move only together with the kill list (per call:
both unchanged with no kill, or `total_kills + 1` and
`total_memory_reclaimed + rss` with the one kill whose re-read RSS is
`rss`); an erroring call leaves all three statistics unchanged and kills
nothing; and over any run, `total_kills` grows by exactly the number of
successful kills while `total_memory_reclaimed` grows by exactly the sum of
their re-read `vm_rss` values. -/
theorem c6_stats_accounting :
    (∀ (cfg : KillerConfig) (s : KillerStats) (e : KillEnv),
      s.total_kills ≤ (check_and_kill cfg s e).stats.total_kills ∧
      s.total_memory_reclaimed ≤ (check_and_kill cfg s e).stats.total_memory_reclaimed ∧
      (check_and_kill cfg s e).stats.total_kills =
        s.total_kills + (check_and_kill cfg s e).killed.length ∧
      (check_and_kill cfg s e).stats.total_memory_reclaimed =
        s.total_memory_reclaimed + ((check_and_kill cfg s e).killed.map Prod.snd).sum) ∧
    (∀ (cfg : KillerConfig) (s : KillerStats) (e : KillEnv) (er : SysErr),
      (check_and_kill cfg s e).err = some er →
      (check_and_kill cfg s e).stats = s ∧ (check_and_kill cfg s e).killed = []) ∧
    (∀ (cfg : KillerConfig) (s : KillerStats) (es : List KillEnv),
      (run_killer cfg s es).1.total_kills =
        s.total_kills + (run_killer cfg s es).2.length ∧
      (run_killer cfg s es).1.total_memory_reclaimed =
        s.total_memory_reclaimed +
          ((run_killer cfg s es).2.map (fun k => k.2.2)).sum) := by
  have hstep : ∀ (cfg : KillerConfig) (s : KillerStats) (e : KillEnv),
      (check_and_kill cfg s e).stats.total_kills =
        s.total_kills + (check_and_kill cfg s e).killed.length ∧
      (check_and_kill cfg s e).stats.total_memory_reclaimed =
        s.total_memory_reclaimed + ((check_and_kill cfg s e).killed.map Prod.snd).sum := by
    intro cfg s e
    rcases check_and_kill_cases cfg s e with ⟨er, h⟩ | h | ⟨pid, rss, h, -⟩ <;> rw [h] <;> simp
  refine ⟨?_, ?_, ?_⟩
  · intro cfg s e
    obtain ⟨h1, h2⟩ := hstep cfg s e
    exact ⟨by omega, by omega, h1, h2⟩
  · intro cfg s e er herr
    rcases check_and_kill_cases cfg s e with ⟨er', h⟩ | h | ⟨pid, rss, h, -⟩
    · rw [h]
      exact ⟨rfl, rfl⟩
    · rw [h] at herr
      exact absurd herr (by simp)
    · rw [h] at herr
      exact absurd herr (by simp)
  · intro cfg s es
    induction es generalizing s with
    | nil => exact ⟨rfl, rfl⟩
    | cons e es ih =>
      have hrun : run_killer cfg s (e :: es) =
          ((run_killer cfg (check_and_kill cfg s e).stats es).1,
            (check_and_kill cfg s e).killed.map (fun k => (e.now, k.1, k.2)) ++
              (run_killer cfg (check_and_kill cfg s e).stats es).2) := rfl
      obtain ⟨ih1, ih2⟩ := ih (check_and_kill cfg s e).stats
      obtain ⟨h1, h2⟩ := hstep cfg s e
      rw [hrun]
      constructor
      · simp only [List.length_append, List.length_map]
        omega
      · simp only [List.map_append, List.sum_append, List.map_map]
        have hcomp : ((check_and_kill cfg s e).killed.map
            ((fun k => k.2.2) ∘ (fun k => (e.now, k.1, k.2)))).sum =
            ((check_and_kill cfg s e).killed.map Prod.snd).sum := rfl
        rw [hcomp]
        omega

/-- **C6** (witness): an erroring call (selection fails with
`PermissionDenied`) leaves the statistics unchanged. -/
theorem c6_error_witness :
    (check_and_kill ⟨SelectorConfig.defaults, exThresholds, 5, 1⟩ ⟨none, 2, 30⟩
        ⟨9, .error .permissionDenied, fun _ => .error .processNotFound,
          fun _ => .ok ()⟩).err = some .permissionDenied ∧
    (check_and_kill ⟨SelectorConfig.defaults, exThresholds, 5, 1⟩ ⟨none, 2, 30⟩
        ⟨9, .error .permissionDenied, fun _ => .error .processNotFound,
          fun _ => .ok ()⟩).stats = ⟨none, 2, 30⟩ ∧
    (check_and_kill ⟨SelectorConfig.defaults, exThresholds, 5, 1⟩ ⟨none, 2, 30⟩
        ⟨9, .error .permissionDenied, fun _ => .error .processNotFound,
          fun _ => .ok ()⟩).killed = [] := by
  refine ⟨rfl, ?_⟩
  exact c6_stats_accounting.2.1 ⟨SelectorConfig.defaults, exThresholds, 5, 1⟩ ⟨none, 2, 30⟩
    ⟨9, .error .permissionDenied, fun _ => .error .processNotFound, fun _ => .ok ()⟩
    .permissionDenied rfl


/-! ### Stat parsing (C7), scorer bounds (C8), worker frame (C9),
lenient numeric parsing (C10) -/

/-- **C7**: the claim says `/proc/<pid>/stat` parsing is total (never
panics) and returns `InvalidData` exactly when the remainder after the last
`)` has fewer than 24 whitespace fields.  Evaluating the code: on a comm
containing spaces, the 24-field check runs on the split of the **whole**
line, and the remainder's fields 0/2/11..14/19 are then indexed with no
bounds check — the first input (25 whole-line tokens, 2 remainder tokens)
drives `parts[2]` out of bounds, a Rust panic; the second input's remainder
has only 22 fields (< 24) yet parsing succeeds rather than returning
`InvalidData`. -/
theorem c7_parse_stat_eval :
    parse_stat ("1 (a b c d e f g h i j k l m n o p q r s t u v) R 3").toList ⟨1⟩ =
      .panicked ∧
    (splitWs ("1 (a b c d e f g h i j k l m n o p q r s t u v) R 3").toList).length = 25 ∧
    (splitWs (("1 (x) R 2 3 4 5 6 7 8 9 10 11 12 13 14 15 16 17 18 19 20 21 22").toList.drop
      5)).length = 22 ∧
    parse_stat ("1 (x) R 2 3 4 5 6 7 8 9 10 11 12 13 14 15 16 17 18 19 20 21 22").toList
      ⟨1⟩ ≠ .invalidData ∧
    parse_stat ("1 (x) R 2 3 4 5 6 7 8 9 10 11 12 13 14 15 16 17 18 19 20 21 22").toList
      ⟨1⟩ ≠ .panicked := by
  exact ⟨by decide, by decide, by decide, by decide, by decide⟩

/-- Helper (C8): the runtime subscore is within `[0, 1]` for every runtime. -/
theorem calculate_runtime_score_secs_bounds (rs : Nat) :
    0 ≤ calculate_runtime_score_secs rs ∧ calculate_runtime_score_secs rs ≤ 1 := by
  unfold calculate_runtime_score_secs
  split_ifs with h1 h2
  · have hb : ((3600 - rs : Nat) : ℚ) ≤ 3600 := by exact_mod_cast Nat.sub_le 3600 rs
    have ha : (0 : ℚ) ≤ ((3600 - rs : Nat) : ℚ) := Nat.cast_nonneg _
    constructor <;> nlinarith
  · have hb : ((86400 - rs : Nat) : ℚ) ≤ 86400 := by exact_mod_cast Nat.sub_le 86400 rs
    have ha : (0 : ℚ) ≤ ((86400 - rs : Nat) : ℚ) := Nat.cast_nonneg _
    constructor <;> nlinarith
  · have hn : (172800 - min rs 172800 : Nat) ≤ 86400 := by omega
    have hb : ((172800 - min rs 172800 : Nat) : ℚ) ≤ 86400 := by exact_mod_cast hn
    have ha : (0 : ℚ) ≤ ((172800 - min rs 172800 : Nat) : ℚ) := Nat.cast_nonneg _
    constructor <;> nlinarith

/-- Helper (C8): the runtime subscore, fallback 0.5 included, is in `[0, 1]`. -/
theorem runtime_score_of_bounds (env : StatEnv) (p : ProcessInfo) :
    0 ≤ runtime_score_of env p ∧ runtime_score_of env p ≤ 1 := by
  unfold runtime_score_of
  cases env.statOf p.pid with
  | none => norm_num
  | some st => exact calculate_runtime_score_secs_bounds _

/-- Helper (C8): the memory subscore is in `[0, 1]` when RSS and swap do
not exceed total memory. -/
theorem calculate_memory_score_bounds (mi : ProcessMemInfo) (T : Nat) (hT : 0 < T)
    (h1 : mi.vm_rss ≤ T) (h2 : mi.vm_swap ≤ T) :
    0 ≤ calculate_memory_score mi T ∧ calculate_memory_score mi T ≤ 1 := by
  unfold calculate_memory_score
  have hT' : (0 : ℚ) < (T : ℚ) := by exact_mod_cast hT
  have hr1 : (mi.vm_rss : ℚ) / (T : ℚ) ≤ 1 := by
    rw [div_le_one hT']
    exact_mod_cast h1
  have hr0 : (0 : ℚ) ≤ (mi.vm_rss : ℚ) / (T : ℚ) :=
    div_nonneg (Nat.cast_nonneg _) (le_of_lt hT')
  have hs1 : (mi.vm_swap : ℚ) / (T : ℚ) ≤ 1 := by
    rw [div_le_one hT']
    exact_mod_cast h2
  have hs0 : (0 : ℚ) ≤ (mi.vm_swap : ℚ) / (T : ℚ) :=
    div_nonneg (Nat.cast_nonneg _) (le_of_lt hT')
  constructor <;> nlinarith

/-- Helper (C8): the adjustment subscore is in `[-1, 1]` for an in-range
`oom_score_adj`. -/
theorem calculate_adj_score_bounds (adj : Int) (hlo : -1000 ≤ adj) (hhi : adj ≤ 1000) :
    -1 ≤ calculate_adj_score adj ∧ calculate_adj_score adj ≤ 1 := by
  unfold calculate_adj_score
  have h1 : ((-1000 : Int) : ℚ) ≤ (adj : ℚ) := by exact_mod_cast hlo
  have h2 : (adj : ℚ) ≤ ((1000 : Int) : ℚ) := by exact_mod_cast hhi
  push_cast at h1 h2
  constructor <;> nlinarith

/-- **C8** (counterexample).  The claim bounds the total score by `[-1, 2]`
for *every* record and weights summing to 1.  The default weights sum to 1,
yet a record whose `vm_rss` is ten times total memory scores 4.3 — the
memory subscore (`0.7 · rss/total`) is unbounded above, so no bound holds
without `vm_rss ≤ total_memory`. -/
theorem c8_score_range_counterexample :
    OOMScorer.default.mem_pressure_weight + OOMScorer.default.runtime_weight +
      OOMScorer.default.oom_score_adj_weight = 1 ∧
    (calculate_score OOMScorer.default noStats (exProcess 9 "big" 10000 0)
      1000).total_score = 43 / 10 ∧
    ¬ (calculate_score OOMScorer.default noStats (exProcess 9 "big" 10000 0)
      1000).total_score ≤ 2 := by
  exact ⟨by decide, by decide, by decide⟩

/-- **C8** (amended).  For non-negative weights summing to 1 and a record
with `vm_rss ≤ total_memory`, `vm_swap ≤ total_memory`, positive total
memory and `oom_score_adj ∈ [-1000, 1000]`, the total score lies in
`[-1, 2]` (indeed in `[-1, 1]`). -/
theorem c8_score_range :
    ∀ (scorer : OOMScorer) (env : StatEnv) (p : ProcessInfo) (T : Nat),
      0 ≤ scorer.mem_pressure_weight → 0 ≤ scorer.runtime_weight →
      0 ≤ scorer.oom_score_adj_weight →
      scorer.mem_pressure_weight + scorer.runtime_weight +
        scorer.oom_score_adj_weight = 1 →
      0 < T → p.mem_info.vm_rss ≤ T → p.mem_info.vm_swap ≤ T →
      -1000 ≤ p.mem_info.oom_score_adj → p.mem_info.oom_score_adj ≤ 1000 →
      -1 ≤ (calculate_score scorer env p T).total_score ∧
        (calculate_score scorer env p T).total_score ≤ 2 := by
  intro scorer env p T hw1 hw2 hw3 hsum hT hrss hswap hlo hhi
  obtain ⟨hm0, hm1⟩ := calculate_memory_score_bounds p.mem_info T hT hrss hswap
  obtain ⟨hr0, hr1⟩ := runtime_score_of_bounds env p
  obtain ⟨ha0, ha1⟩ := calculate_adj_score_bounds p.mem_info.oom_score_adj hlo hhi
  have htot : (calculate_score scorer env p T).total_score =
      calculate_memory_score p.mem_info T * scorer.mem_pressure_weight +
      runtime_score_of env p * scorer.runtime_weight +
      calculate_adj_score p.mem_info.oom_score_adj * scorer.oom_score_adj_weight := rfl
  rw [htot]
  constructor <;>
    nlinarith [mul_nonneg hm0 hw1, mul_nonneg hr0 hw2,
      mul_le_mul_of_nonneg_right hm1 hw1, mul_le_mul_of_nonneg_right hr1 hw2,
      mul_le_mul_of_nonneg_right ha1 hw3, mul_le_mul_of_nonneg_right ha0 hw3]

/-- **C8** (witness for the amended theorem) at default weights and an
in-range record. -/
theorem c8_score_range_witness :
    -1 ≤ (calculate_score OOMScorer.default noStats (exProcess 2 "w" 500 0)
        1000).total_score ∧
      (calculate_score OOMScorer.default noStats (exProcess 2 "w" 500 0)
        1000).total_score ≤ 2 :=
  c8_score_range OOMScorer.default noStats (exProcess 2 "w" 500 0) 1000 (by decide)
    (by decide) (by decide) (by decide) (by decide) (by decide) (by decide) (by decide)
    (by decide)

/-- **C9**: `start()` changes nothing observable through `get_status()` on
the handle — it only flips the `running` flag — and the worker it spawns
loops on a freshly constructed `OOMKiller::new(config)` whose statistics
start at zero, so any run of the worker leaves the original handle's
`last_kill_time`, `total_kills` and `total_memory_reclaimed` exactly as
they were before `start()`. -/
theorem c9_worker_frame :
    ∀ (k : OOMKiller) (spawnTime : Nat) (es : List KillEnv),
      OOMKiller.get_status (OOMKiller.start k spawnTime).1 = OOMKiller.get_status k ∧
      ((OOMKiller.start k spawnTime).1 = { k with running := true } ∨
        (OOMKiller.start k spawnTime).1 = k) ∧
      (∀ w, (OOMKiller.start k spawnTime).2 = some w →
        w.kstats = ⟨none, 0, 0⟩ ∧ w.config = k.config ∧
        (workerRun w es).kstats = (run_killer k.config ⟨none, 0, 0⟩ es).1 ∧
        OOMKiller.get_status (OOMKiller.start k spawnTime).1 =
          OOMKiller.get_status k) := by
  intro k spawnTime es
  unfold OOMKiller.start
  split_ifs with hr
  · exact ⟨rfl, .inr rfl, fun w hw => absurd hw (by simp)⟩
  · refine ⟨rfl, .inl rfl, fun w hw => ?_⟩
    obtain rfl : OOMKiller.new k.config spawnTime = w := Option.some.inj hw
    exact ⟨rfl, rfl, rfl, rfl⟩

/-- **C9** (witness): a stopped killer spawns a fresh zero-statistics
worker. -/
theorem c9_worker_frame_witness :
    (OOMKiller.new ⟨SelectorConfig.defaults, exThresholds, 5, 1⟩ 0).kstats =
      ⟨none, 0, 0⟩ ∧
    (OOMKiller.new ⟨SelectorConfig.defaults, exThresholds, 5, 1⟩ 3).kstats =
        ⟨none, 0, 0⟩ ∧
      (OOMKiller.new ⟨SelectorConfig.defaults, exThresholds, 5, 1⟩ 3).config =
        (OOMKiller.new ⟨SelectorConfig.defaults, exThresholds, 5, 1⟩ 0).config ∧
      (workerRun (OOMKiller.new ⟨SelectorConfig.defaults, exThresholds, 5, 1⟩ 3) []).kstats =
        (run_killer (OOMKiller.new ⟨SelectorConfig.defaults, exThresholds, 5, 1⟩ 0).config
          ⟨none, 0, 0⟩ []).1 ∧
      OOMKiller.get_status
          (OOMKiller.start (OOMKiller.new ⟨SelectorConfig.defaults, exThresholds, 5, 1⟩ 0)
            3).1 =
        OOMKiller.get_status (OOMKiller.new ⟨SelectorConfig.defaults, exThresholds, 5, 1⟩ 0) :=
  ⟨rfl, (c9_worker_frame (OOMKiller.new ⟨SelectorConfig.defaults, exThresholds, 5, 1⟩ 0) 3
    []).2.2 (OOMKiller.new ⟨SelectorConfig.defaults, exThresholds, 5, 1⟩ 3) rfl⟩

/-- **C10**: the `/proc` numeric parsers never surface a parse error for a
malformed value: `parse_kb_value` yields 0 whenever its first whitespace
token fails to parse as `u64` (or there is no token), and a recognized
`MemTotal:` meminfo line whose value token fails to parse sets
`total_memory` to 0 rather than erroring. -/
theorem c10_lenient_parsing :
    (∀ (v : List Char) (tok : List Char), (splitWs v).head? = some tok →
      parseU64 tok = none → parse_kb_value v = 0) ∧
    (∀ v : List Char, (splitWs v).head? = none → parse_kb_value v = 0) ∧
    (∀ (stats : MemoryStats) (line : List Char) (v : List Char)
      (more : List (List Char)),
      splitWs line = "MemTotal:".toList :: v :: more → parseU64 v = none →
      (memStatsLine stats line).total_memory = 0) := by
  refine ⟨?_, ?_, ?_⟩
  · intro v tok hhead hparse
    unfold parse_kb_value
    rw [hhead]
    dsimp only
    rw [hparse]
    rfl
  · intro v hhead
    unfold parse_kb_value
    rw [hhead]
  · intro stats line v more hsplit hparse
    unfold memStatsLine
    rw [hsplit]
    simp [hparse]
    rw [if_neg (by omega)]

/-- **C10** (witness): a corrupt `MemTotal:` value token parses to nothing
and the parsed snapshot reports `total_memory = 0`. -/
theorem c10_lenient_parsing_witness :
    parseU64 ("12x34").toList = none ∧
    (memStatsLine ⟨5, 5, 5, 5, 5, 5⟩ ("MemTotal: 12x34 kB").toList).total_memory = 0 :=
  ⟨by decide, c10_lenient_parsing.2.2 ⟨5, 5, 5, 5, 5, 5⟩ ("MemTotal: 12x34 kB").toList
    ("12x34").toList [("kB").toList] (by decide) (by decide)⟩

end Room
